import Mathlib

/-!
Verification development for the picks image-optimization pipeline
(src/picks.py).  The Python source is shallowly embedded: pure path and
name computations become Lean functions on `String` and `List String`
(path segments), the filesystem is an explicit association list from
paths to byte sizes, the PIL transform is an opaque parameter, and the
multiprocessing executor is modelled by the order in which worker
results arrive.  Machine integers do not overflow in the source (Python
ints are unbounded), so `Nat` is used throughout.
-/

namespace Picks

/-! ## Python string primitives used by picks.py -/

/-- Model of the Python method lower() as used on ASCII extension names. -/
def strLower (s : String) : String := String.mk (s.data.map Char.toLower)

/-- Split a character list around its rightmost dot: the part before the
dot and the part after it, or none when no dot occurs.  This models the
rfind-based suffix computation of pathlib PurePath.suffix. -/
def splitLastDot : List Char → Option (List Char × List Char)
  | [] => none
  | c :: rest =>
    match splitLastDot rest with
    | some (b, a) => some (c :: b, a)
    | none => if c = '.' then some ([], rest) else none

/-- Pathlib suffix of a file name: the dot-extension when the rightmost
dot is neither the first nor the last character, otherwise empty. -/
def pySuffix (name : String) : String :=
  match splitLastDot name.data with
  | some (b, a) => if b ≠ [] ∧ a ≠ [] then String.mk ('.' :: a) else ""
  | none => ""

/-- Pathlib stem: the file name with its pySuffix removed. -/
def pyStem (name : String) : String :=
  match splitLastDot name.data with
  | some (b, a) => if b ≠ [] ∧ a ≠ [] then String.mk b else name
  | none => name

/-- Pathlib with_suffix on a file name: the stem followed by the new
extension. -/
def pyWithSuffix (name ext : String) : String := pyStem name ++ ext

/-- One left-to-right scan of Python str.replace with a nonempty pattern:
every non-overlapping occurrence of old is replaced by new.  Fuel bounds
the recursion by the length of the scanned list so that the definition is
structural and kernel-computable. -/
def replFuel (old new : List Char) : Nat → List Char → List Char
  | _, [] => []
  | 0, s => s
  | fuel + 1, c :: rest =>
    if old.isPrefixOf (c :: rest) then
      new ++ replFuel old new fuel (rest.drop (old.length - 1))
    else
      c :: replFuel old new fuel rest

/-- Interleaving used by Python str.replace when the pattern is empty. -/
def interNew (new : List Char) : List Char → List Char
  | [] => new
  | c :: r => new ++ c :: interNew new r

/-- Python str.replace: replaces every non-overlapping occurrence of old
by new, scanning left to right. -/
def pyStrReplace (s old new : String) : String :=
  if old.data.isEmpty then String.mk (interNew new.data s.data)
  else String.mk (replFuel old.data new.data s.data.length s.data)

/-- Decimal digits of a natural number, little-endian, with explicit fuel
so that the definition is structural and kernel-computable. -/
def decDigitsF : Nat → Nat → List Nat
  | 0, _ => []
  | fuel + 1, n => if n = 0 then [] else n % 10 :: decDigitsF fuel (n / 10)

/-- Decimal digits of a natural number, little-endian; empty for zero. -/
def decDigits (n : Nat) : List Nat := decDigitsF n n

/-- The character for one decimal digit. -/
def decChar : Nat → Char
  | 0 => '0'
  | 1 => '1'
  | 2 => '2'
  | 3 => '3'
  | 4 => '4'
  | 5 => '5'
  | 6 => '6'
  | 7 => '7'
  | 8 => '8'
  | 9 => '9'
  | _ => '?'

/-- Decimal rendering of a natural number, modelling Python str(n). -/
def natStr (n : Nat) : String :=
  if n = 0 then "0" else String.mk ((decDigits n).reverse.map decChar)

/-- Python str.zfill: left-pad with zero characters up to the requested
width; a string at least that wide is returned unchanged. -/
def pyZfill (s : String) (width : Nat) : String :=
  String.mk (List.replicate (width - s.data.length) '0' ++ s.data)

/-- Lexicographic comparison of character lists by code point, modelling
the Python string comparison used by list.sort(). -/
def charListLe : List Char → List Char → Bool
  | [], _ => true
  | _ :: _, [] => false
  | a :: as, b :: bs => if a < b then true else if b < a then false else charListLe as bs

/-- Python string less-or-equal, as a proposition. -/
def strLe (a b : String) : Prop := charListLe a.data b.data = true

instance : DecidableRel strLe := fun a b => by
  unfold strLe; infer_instance

/-! ## Discovery (get_image_files, picks.py lines 25-45) -/

/-- The fixed default extension set (line 27). -/
def defaultExtensions : List String :=
  [".jpg", ".jpeg", ".png", ".bmp", ".tiff", ".tif", ".webp"]

/-- Joined paths of the files in one walked directory whose lowercased
suffix lies in the extension set (lines 40-43). -/
def walkDirMatches (exts : List String) (rootAndFiles : String × List String) : List String :=
  (rootAndFiles.2.filter (fun f => exts.contains (strLower (pySuffix f)))).map
    (fun f => rootAndFiles.1 ++ "/" ++ f)

/-- Embeds get_image_files (lines 25-45).  The os.walk enumeration is
modelled by its output: the list of (directory path, file names) pairs in
traversal order; that order is OS-dependent and in particular not sorted.
The Boolean flag records whether the empty-intersection warning fired.
The Python condition on the include filter is truthiness: None and the
empty set both fall through to the default extension set. -/
def get_image_files (walkOutput : List (String × List String))
    (includeExtensions : Option (List String)) : List String × Bool :=
  match includeExtensions with
  | some exts =>
    if exts.isEmpty then (walkOutput.flatMap (walkDirMatches defaultExtensions), false)
    else
      let imageExtensions := exts.filter (fun e => defaultExtensions.contains e)
      if imageExtensions.isEmpty then ([], true)
      else (walkOutput.flatMap (walkDirMatches imageExtensions), false)
  | none => (walkOutput.flatMap (walkDirMatches defaultExtensions), false)

/-- The sort the planner applies to the discovered paths before numbering
(line 198), modelling Python list.sort() on strings. -/
def sorted_image_files (walkOutput : List (String × List String))
    (includeExtensions : Option (List String)) : List String :=
  List.insertionSort strLe (get_image_files walkOutput includeExtensions).1

/-! ## Destination structure (create_destination_structure, lines 48-54) -/

/-- Embeds create_destination_structure over an explicit record of the
directories created so far: the mkdir call is recorded unless dry_run. -/
def create_destination_structure (targetFolder destinationBase : List String)
    (dryRun : Bool) (madeDirs : List (List String)) : List String × List (List String) :=
  let destinationFolder := destinationBase ++ [targetFolder.getLastD ""]
  if dryRun then (destinationFolder, madeDirs)
  else (destinationFolder, destinationFolder :: madeDirs)

/-! ## Sequential names (generate_sequential_name, lines 57-76) -/

/-- Embeds generate_sequential_name: the padding width is the digit count
of the total, but at least four. -/
def generate_sequential_name (folderName : String) (index totalCount : Nat)
    (fileExtension : String) : String :=
  let digits := max (natStr totalCount).data.length 4
  folderName ++ "-" ++ pyZfill (natStr index) digits ++ fileExtension

/-! ## Task planning (prepare_processing_tasks, lines 187-242) -/

/-- The resolved configuration consumed by the planner; argument parsing
and validation are out of scope. -/
structure Cfg where
  maxSize : Nat
  quality : Nat
  format : String
  keepNames : Bool
  preserveDirs : Bool
  skipExisting : Bool
  dryRun : Bool
deriving DecidableEq

/-- One planned task, embedding the per-file argument tuple handed to the
worker (line 240). -/
structure TaskArgs where
  inputPath : List String
  outputPath : List String
  maxSize : Nat
  quality : Nat
  format : String
  skipExisting : Bool
deriving DecidableEq

/-- Lexical normalization of an absolute path given as segments, modelling
Path.resolve over a filesystem without symbolic links: dot segments vanish
and dot-dot pops the previous segment (staying at the root on underflow). -/
def resolveSegs (segs : List String) : List String :=
  segs.foldl
    (fun acc s => if s = "." then acc else if s = ".." then acc.dropLast else acc ++ [s]) []

/-- The output extension fixed by the format (lines 207 and 260). -/
def fileExtensionOf (cfg : Cfg) : String := if cfg.format = "webp" then ".webp" else ".jpg"

/-- Output path for one input file, relative paths given as segments under
the target folder.  This embeds the four-way branch of
prepare_processing_tasks (lines 211-238) shared verbatim by
preview_processing (lines 263-278). -/
def outputPathFor (cfg : Cfg) (folderName : String) (destinationFolder : List String)
    (totalCount index : Nat) (relPath : List String) : List String :=
  let ext := fileExtensionOf cfg
  if cfg.preserveDirs then
    if cfg.keepNames then
      destinationFolder ++ relPath.dropLast ++ [pyWithSuffix (relPath.getLastD "") ext]
    else
      destinationFolder ++ relPath.dropLast ++
        [generate_sequential_name folderName index totalCount ext]
  else
    if cfg.keepNames then
      destinationFolder ++
        [pyStrReplace (relPath.getLastD "") (pySuffix (relPath.getLastD "")) ext]
    else
      destinationFolder ++ [generate_sequential_name folderName index totalCount ext]

/-- Containment test of the security check (line 224): relative_to on the
resolved paths succeeds exactly when the resolved destination is a prefix
of the resolved output path. -/
def containmentOk (destinationFolder outputFile : List String) : Bool :=
  (resolveSegs destinationFolder).isPrefixOf (resolveSegs outputFile)

/-- The task-building loop of prepare_processing_tasks (lines 209-241):
1-based enumeration over the sorted files; the security check exists only
in the preserve-dirs branch and drops the single offending task, letting
the loop continue.  Returns the built tasks together with the dropped
output paths (the security diagnostics).  There is no collision check. -/
def planLoop (cfg : Cfg) (folderName : String) (targetPath destinationFolder : List String)
    (totalCount : Nat) : Nat → List (List String) → List TaskArgs × List (List String)
  | _, [] => ([], [])
  | index, relPath :: rest =>
    let outputFile := outputPathFor cfg folderName destinationFolder totalCount index relPath
    let r := planLoop cfg folderName targetPath destinationFolder totalCount (index + 1) rest
    if cfg.preserveDirs && !containmentOk destinationFolder outputFile then
      (r.1, outputFile :: r.2)
    else
      (⟨targetPath ++ relPath, outputFile, cfg.maxSize, cfg.quality, cfg.format,
        cfg.skipExisting⟩ :: r.1, r.2)

/-- The rendered dry-run preview: example (input name, output name) pairs
and, when more than five files exist, the count of the remainder. -/
structure Preview where
  examples : List (String × String)
  moreCount : Option Nat
deriving DecidableEq

/-- The example loop of preview_processing (lines 262-280), recomputing
the same output names as the planner for the listed files. -/
def previewLoop (cfg : Cfg) (folderName : String) (destinationFolder : List String)
    (totalCount : Nat) : Nat → List (List String) → List (String × String)
  | _, [] => []
  | index, relPath :: rest =>
    let outputFile := outputPathFor cfg folderName destinationFolder totalCount index relPath
    (relPath.getLastD "", outputFile.getLastD "") ::
      previewLoop cfg folderName destinationFolder totalCount (index + 1) rest

/-- Embeds preview_processing (lines 245-286): example outputs for the
first five files plus a count of the remaining files when more than five
exist; no tasks are produced and nothing touches the filesystem. -/
def preview_processing (cfg : Cfg) (folderName : String) (destinationFolder : List String)
    (imageFiles : List (List String)) : Preview :=
  ⟨previewLoop cfg folderName destinationFolder imageFiles.length 1 (imageFiles.take 5),
    if 5 < imageFiles.length then some (imageFiles.length - 5) else none⟩

/-- The planner result: tasks, security diagnostics, and the dry-run
preview when one was rendered. -/
structure PlanResult where
  tasks : List TaskArgs
  securityErrors : List (List String)
  preview : Option Preview
deriving DecidableEq

/-- Embeds prepare_processing_tasks (lines 187-242).  The discovered files
are given as segment lists relative to the target folder (the image of
Path.relative_to at line 213 or 232 applied to the walk output), already
in the sorted order established at line 198.  The folder name used for
sequential prefixes is the last segment of the target path. -/
def prepare_processing_tasks (cfg : Cfg) (targetPath destinationFolder : List String)
    (imageFiles : List (List String)) : PlanResult :=
  if imageFiles.isEmpty then ⟨[], [], none⟩
  else if cfg.dryRun then
    ⟨[], [], some (preview_processing cfg (targetPath.getLastD "") destinationFolder imageFiles)⟩
  else
    let r := planLoop cfg (targetPath.getLastD "") targetPath destinationFolder
      imageFiles.length 1 imageFiles
    ⟨r.1, r.2, none⟩

/-! ## Worker (process_single_image, lines 106-141) -/

/-- The worker result tuple (success, input path, error message, input
size, output size, skipped flag). -/
structure WorkerResult where
  success : Bool
  inputPath : List String
  errorMessage : Option String
  inputSize : Nat
  outputSize : Nat
  wasSkipped : Bool
deriving DecidableEq

/-- A flat filesystem model: an association list from file path to byte
size; absence means stat raises. -/
abbrev FS := List (List String × Nat)

/-- Size lookup, modelling Path.stat on the flat filesystem. -/
def fsLookup (fs : FS) (p : List String) : Option Nat :=
  match fs.find? (fun e => e.1 == p) with
  | some e => some e.2
  | none => none

/-- Embeds process_single_image.  The PIL-backed optimize_image call is an
opaque parameter returning success and the updated filesystem; the third
result component counts how many times it was invoked.  A missing input
file models the stat exception caught at line 135. -/
def process_single_image (optimize : FS → TaskArgs → Bool × FS) (fs : FS)
    (t : TaskArgs) : WorkerResult × FS × Nat :=
  match fsLookup fs t.inputPath with
  | none => (⟨false, t.inputPath, some "stat failed", 0, 0, false⟩, fs, 0)
  | some inputSize =>
    if t.skipExisting && (fsLookup fs t.outputPath).isSome then
      (⟨true, t.inputPath, none, inputSize, (fsLookup fs t.outputPath).getD 0, true⟩, fs, 0)
    else
      let r := optimize fs t
      if r.1 then
        (⟨true, t.inputPath, none, inputSize, (fsLookup r.2 t.outputPath).getD 0, false⟩,
          r.2, 1)
      else
        (⟨false, t.inputPath, some "Processing failed", inputSize, 0, false⟩, r.2, 1)

/-- Sequential execution of a task list, threading the filesystem and
counting transformer invocations. -/
def runBatch (optimize : FS → TaskArgs → Bool × FS) (fs : FS) :
    List TaskArgs → List WorkerResult × FS × Nat
  | [] => ([], fs, 0)
  | t :: rest =>
    let r := process_single_image optimize fs t
    let rr := runBatch optimize r.2.1 rest
    (r.1 :: rr.1, rr.2.1, r.2.2 + rr.2.2)

/-! ## Aggregation (process_images_with_progress, lines 289-353) -/

/-- The running aggregate of the batch. -/
structure RunStats where
  successful : Nat
  failed : Nat
  skipped : Nat
  totalInputSize : Nat
  totalOutputSize : Nat
deriving DecidableEq

/-- One aggregation step (lines 308-317 and 333-342): sizes always
accumulate, and exactly one of the three counters grows, the skipped
counter taking precedence. -/
def foldResult (st : RunStats) (r : WorkerResult) : RunStats :=
  if r.wasSkipped then
    ⟨st.successful, st.failed, st.skipped + 1,
      st.totalInputSize + r.inputSize, st.totalOutputSize + r.outputSize⟩
  else if r.success then
    ⟨st.successful + 1, st.failed, st.skipped,
      st.totalInputSize + r.inputSize, st.totalOutputSize + r.outputSize⟩
  else
    ⟨st.successful, st.failed + 1, st.skipped,
      st.totalInputSize + r.inputSize, st.totalOutputSize + r.outputSize⟩

/-- Embeds process_images_with_progress.  With one process the results are
folded in submission order over the task list; with several processes the
futures complete in an arrival order that is some permutation of the
per-task results, supplied here as an explicit argument. -/
def process_images_with_progress (run : TaskArgs → WorkerResult) (taskArgs : List TaskArgs)
    (processes : Nat) (arrival : List WorkerResult) : RunStats :=
  if taskArgs.isEmpty then ⟨0, 0, 0, 0, 0⟩
  else if processes = 1 then (taskArgs.map run).foldl foldResult ⟨0, 0, 0, 0, 0⟩
  else arrival.foldl foldResult ⟨0, 0, 0, 0, 0⟩

/-! ## Transform geometry (optimize_image, lines 380-395) -/

/-- The resize geometry of optimize_image: resize only when the larger
dimension exceeds maxSize; the new shorter dimension is
int((short * maxSize) / long), a floor for these nonnegative values. -/
def resizeDims (width height maxSize : Nat) : Nat × Nat :=
  if max width height > maxSize then
    if width > height then (maxSize, height * maxSize / width)
    else (width * maxSize / height, maxSize)
  else (width, height)

/-- Division rounded to nearest (half away from zero), the standard
rounding named by the specification for the shorter dimension. -/
def roundNearest (a b : Nat) : Nat := (2 * a + b) / (2 * b)

/-- Number of characters in the decimal rendering of a natural number,
matching len(str(n)) in the source. -/
def digitCount (n : Nat) : Nat := (natStr n).data.length

/-! ## General lemmas -/

theorem string_data_append (a b : String) : (a ++ b).data = a.data ++ b.data := by
  cases a
  cases b
  rfl

theorem splitLastDot_eq :
    ∀ {l b a : List Char}, splitLastDot l = some (b, a) → l = b ++ '.' :: a := by
  intro l
  induction l with
  | nil => intro b a h; simp [splitLastDot] at h
  | cons c rest ih =>
    intro b a h
    rw [splitLastDot] at h
    cases hr : splitLastDot rest with
    | some p =>
      obtain ⟨b0, a0⟩ := p
      rw [hr] at h
      obtain ⟨rfl, rfl⟩ : b = c :: b0 ∧ a = a0 := by
        have hx := h.symm
        simp only [Option.some.injEq, Prod.mk.injEq] at hx
        exact hx
      simpa using ih hr
    | none =>
      rw [hr] at h
      by_cases hc : c = '.'
      · subst hc
        obtain ⟨rfl, rfl⟩ : b = [] ∧ a = rest := by
          have hx := h.symm
          simp at hx
          exact hx
        rfl
      · simp [hc] at h

theorem pySuffix_eq_some {name : String} {b a : List Char}
    (hs : splitLastDot name.data = some (b, a)) (hb : b ≠ []) (ha : a ≠ []) :
    pySuffix name = String.mk ('.' :: a) ∧ pyStem name = String.mk b := by
  unfold pySuffix pyStem
  rw [hs]
  simp [hb, ha]

theorem pySuffix_ne_empty_elim {name : String} (h : pySuffix name ≠ "") :
    ∃ b a, splitLastDot name.data = some (b, a) ∧ b ≠ [] ∧ a ≠ [] := by
  unfold pySuffix at h
  split at h
  · rename_i b a hs
    by_cases hba : b ≠ [] ∧ a ≠ []
    · exact ⟨b, a, hs, hba.1, hba.2⟩
    · rw [if_neg hba] at h
      simp at h
  · simp at h

theorem pySuffix_decomp {name : String} (h : pySuffix name ≠ "") :
    (pyStem name).data ++ (pySuffix name).data = name.data
    ∧ (pySuffix name).data ≠ [] ∧ 3 ≤ name.data.length := by
  obtain ⟨b, a, hs, hb, ha⟩ := pySuffix_ne_empty_elim h
  obtain ⟨hsfx, hstem⟩ := pySuffix_eq_some hs hb ha
  have hd := splitLastDot_eq hs
  refine ⟨?_, ?_, ?_⟩
  · rw [hsfx, hstem, hd]
  · rw [hsfx]; simp
  · rw [hd]
    have hbl : 1 ≤ b.length := List.length_pos.mpr hb
    have hal : 1 ≤ a.length := List.length_pos.mpr ha
    simp [List.length_append]
    omega

theorem pyStem_append_pySuffix (name : String) : pyStem name ++ pySuffix name = name := by
  apply String.ext
  rw [string_data_append]
  unfold pySuffix pyStem
  cases hs : splitLastDot name.data with
  | none => simp
  | some p =>
    obtain ⟨b, a⟩ := p
    by_cases hba : b ≠ [] ∧ a ≠ []
    · simp only [hba, if_true, if_pos hba]
      exact (splitLastDot_eq hs).symm
    · simp [hba]

theorem replFuel_len_or_id (old new : List Char) :
    ∀ (fuel : Nat) (s : List Char), s.length ≤ fuel →
      replFuel old new fuel s = s ∨ new.length ≤ (replFuel old new fuel s).length := by
  intro fuel
  induction fuel with
  | zero =>
    intro s hs
    left
    interval_cases hl : s.length
    · rw [List.length_eq_zero] at hl
      subst hl
      rfl
  | succ f ih =>
    intro s hs
    cases s with
    | nil => left; rfl
    | cons c rest =>
      rw [replFuel]
      by_cases hp : old.isPrefixOf (c :: rest)
      · right
        rw [if_pos hp]
        simp [List.length_append]
      · rw [if_neg hp]
        rcases ih rest (by simpa using Nat.le_of_succ_le_succ hs) with h | h
        · left; rw [h]
        · right; simp; omega

theorem replFuel_boundary (old new : List Char) (hold : old ≠ []) :
    ∀ (fuel : Nat) (pre : List Char), (pre ++ old).length ≤ fuel →
      ¬ old <:+: (pre ++ old).dropLast →
      replFuel old new fuel (pre ++ old) = pre ++ new := by
  intro fuel
  induction fuel with
  | zero =>
    intro pre hlen hninf
    exfalso
    have h1 : 1 ≤ old.length := List.length_pos.mpr hold
    rw [List.length_append] at hlen
    omega
  | succ f ih =>
    intro pre hlen hninf
    cases pre with
    | nil =>
      obtain ⟨o, ot, rfl⟩ := List.exists_cons_of_ne_nil hold
      simp only [List.nil_append] at hlen hninf ⊢
      rw [replFuel, if_pos (List.isPrefixOf_iff_prefix.mpr (List.prefix_refl _))]
      have hdrop : ot.drop ((o :: ot).length - 1) = [] := by
        simp [List.drop_length]
      rw [hdrop]
      have hnil : replFuel (o :: ot) new f [] = [] := by cases f <;> rfl
      rw [hnil]
      simp
    | cons c pre2 =>
      have hne : pre2 ++ old ≠ [] := by
        intro h0
        exact hold (List.append_eq_nil.mp h0).2
      have hnp : ¬ old.isPrefixOf (c :: (pre2 ++ old)) = true := by
        intro hp
        apply hninf
        rw [List.isPrefixOf_iff_prefix] at hp
        obtain ⟨r, hr⟩ := hp
        have hrne : r ≠ [] := by
          intro h0
          subst h0
          have hlx := congrArg List.length hr
          have hol : 1 ≤ old.length := List.length_pos.mpr hold
          simp [List.length_append] at hlx
          omega
        have hgoal : ((c :: pre2) ++ old).dropLast = old ++ r.dropLast := by
          rw [List.cons_append, ← hr, List.dropLast_append_of_ne_nil old hrne]
        rw [hgoal]
        exact List.IsPrefix.isInfix ⟨r.dropLast, rfl⟩
      rw [List.cons_append, replFuel, if_neg hnp]
      have hih := ih pre2 ?_ ?_
      · rw [hih, List.cons_append]
      · rw [List.length_append] at hlen ⊢
        simp at hlen
        omega
      · intro hinf
        apply hninf
        rw [List.cons_append, List.dropLast_cons_of_ne_nil hne]
        exact List.infix_cons hinf

theorem pyStrReplace_final_suffix (name ext : String) (hsfx : pySuffix name ≠ "")
    (hninf : ¬ (pySuffix name).data <:+: name.data.dropLast) :
    pyStrReplace name (pySuffix name) ext = pyStem name ++ ext := by
  obtain ⟨hdecomp, hne, _⟩ := pySuffix_decomp hsfx
  apply String.ext
  unfold pyStrReplace
  rw [if_neg (by simpa [List.isEmpty_iff] using hne)]
  rw [string_data_append]
  have hrw : name.data = (pyStem name).data ++ (pySuffix name).data := hdecomp.symm
  rw [hrw]
  rw [hrw] at hninf
  exact replFuel_boundary (pySuffix name).data ext.data hne _ (pyStem name).data le_rfl hninf

theorem previewLoop_length (cfg : Cfg) (folderName : String) (destinationFolder : List String)
    (totalCount : Nat) :
    ∀ (index : Nat) (files : List (List String)),
      (previewLoop cfg folderName destinationFolder totalCount index files).length
        = files.length := by
  intro index files
  induction files generalizing index with
  | nil => rfl
  | cons f rest ih => simp [previewLoop, ih]

theorem foldResult_counts (results : List WorkerResult) (init : RunStats) :
    (results.foldl foldResult init).successful + (results.foldl foldResult init).failed
      + (results.foldl foldResult init).skipped
    = init.successful + init.failed + init.skipped + results.length := by
  induction results generalizing init with
  | nil => simp
  | cons r rest ih =>
    rw [List.foldl_cons, ih]
    unfold foldResult
    by_cases h1 : r.wasSkipped = true <;> by_cases h2 : r.success = true <;>
      simp [h1, h2, List.length_cons] <;> omega

theorem decDigitsF_eq_digits : ∀ (fuel n : Nat), n ≤ fuel → decDigitsF fuel n = Nat.digits 10 n := by
  intro fuel
  induction fuel with
  | zero =>
    intro n hn
    have h0 : n = 0 := Nat.le_zero.mp hn
    subst h0
    simp [decDigitsF]
  | succ f ih =>
    intro n hn
    by_cases h0 : n = 0
    · subst h0; simp [decDigitsF]
    · rw [decDigitsF, if_neg h0, Nat.digits_def' (by norm_num : (1 : Nat) < 10)
        (Nat.pos_of_ne_zero h0)]
      congr 1
      refine ih (n / 10) ?_
      have := Nat.div_lt_self (Nat.pos_of_ne_zero h0) (by norm_num : 1 < 10)
      omega

theorem decDigits_eq_digits (n : Nat) : decDigits n = Nat.digits 10 n :=
  decDigitsF_eq_digits n n le_rfl

theorem natStr_data (n : Nat) (h0 : n ≠ 0) :
    (natStr n).data = (Nat.digits 10 n).reverse.map decChar := by
  unfold natStr
  rw [if_neg h0, decDigits_eq_digits]

theorem decChar_toNat (d : Nat) (hd : d < 10) : (decChar d).toNat = 48 + d := by
  interval_cases d <;> rfl

theorem decChar_ne_zero_char {d : Nat} (hd : d < 10) (h0 : d ≠ 0) : decChar d ≠ '0' := by
  intro h
  have h1 := congrArg Char.toNat h
  rw [decChar_toNat d hd] at h1
  have h2 : ('0').toNat = 48 := rfl
  rw [h2] at h1
  omega

theorem map_decChar_inj : ∀ (l1 l2 : List Nat), (∀ x ∈ l1, x < 10) → (∀ x ∈ l2, x < 10) →
    l1.map decChar = l2.map decChar → l1 = l2 := by
  intro l1
  induction l1 with
  | nil =>
    intro l2 _ _ h
    cases l2 with
    | nil => rfl
    | cons y ys => simp at h
  | cons x xs ih =>
    intro l2 h1 h2 h
    cases l2 with
    | nil => simp at h
    | cons y ys =>
      simp only [List.map_cons, List.cons.injEq] at h
      have hx : x = y := by
        have h3 := congrArg Char.toNat h.1
        rw [decChar_toNat x (h1 x (List.mem_cons_self x xs)),
          decChar_toNat y (h2 y (List.mem_cons_self y ys))] at h3
        omega
      rw [hx, ih ys (fun z hz => h1 z (List.mem_cons_of_mem x hz))
        (fun z hz => h2 z (List.mem_cons_of_mem y hz)) h.2]

theorem natStr_inj {i j : Nat} (hi : i ≠ 0) (hj : j ≠ 0)
    (h : (natStr i).data = (natStr j).data) : i = j := by
  rw [natStr_data i hi, natStr_data j hj] at h
  have h2 : (Nat.digits 10 i).reverse = (Nat.digits 10 j).reverse :=
    map_decChar_inj _ _
      (fun x hx => Nat.digits_lt_base (by norm_num) (List.mem_reverse.mp hx))
      (fun x hx => Nat.digits_lt_base (by norm_num) (List.mem_reverse.mp hx)) h
  have h3 : Nat.digits 10 i = Nat.digits 10 j := List.reverse_injective h2
  calc i = Nat.ofDigits 10 (Nat.digits 10 i) := (Nat.ofDigits_digits 10 i).symm
    _ = Nat.ofDigits 10 (Nat.digits 10 j) := by rw [h3]
    _ = j := Nat.ofDigits_digits 10 j

theorem natStr_ne_nil (n : Nat) (h0 : n ≠ 0) : (natStr n).data ≠ [] := by
  rw [natStr_data n h0]
  simp [Nat.digits_ne_nil_iff_ne_zero.mpr h0]

theorem natStr_headD_ne_zero (n : Nat) (h0 : n ≠ 0) : (natStr n).data.headD ' ' ≠ '0' := by
  rw [natStr_data n h0]
  have hnn : Nat.digits 10 n ≠ [] := Nat.digits_ne_nil_iff_ne_zero.mpr h0
  obtain ⟨d, rest, hrev⟩ : ∃ d rest, (Nat.digits 10 n).reverse = d :: rest :=
    List.exists_cons_of_ne_nil (by simpa using hnn)
  rw [hrev]
  simp only [List.map_cons, List.headD_cons]
  have hd_last : d = (Nat.digits 10 n).getLast hnn := by
    have h1 : (Nat.digits 10 n).reverse.head? = some d := by rw [hrev]; rfl
    rw [List.head?_reverse, List.getLast?_eq_getLast _ hnn] at h1
    exact (Option.some.inj h1).symm
  have hlt : d < 10 :=
    Nat.digits_lt_base (by norm_num) (by rw [hd_last]; exact List.getLast_mem hnn)
  have hne : d ≠ 0 := by rw [hd_last]; exact Nat.getLast_digit_ne_zero 10 h0
  exact decChar_ne_zero_char hlt hne

theorem natStr_length (n : Nat) (h0 : n ≠ 0) :
    (natStr n).data.length = (Nat.digits 10 n).length := by
  rw [natStr_data n h0]
  simp

theorem pyZfill_data (s : String) (w : Nat) :
    (pyZfill s w).data = List.replicate (w - s.data.length) '0' ++ s.data := rfl

theorem pyZfill_length (s : String) (w : Nat) :
    (pyZfill s w).data.length = max w s.data.length := by
  rw [pyZfill_data, List.length_append, List.length_replicate]
  omega

theorem replicate_pad_ne {k : Nat} {s t : List Char} (hk : 1 ≤ k)
    (hth : t.headD ' ' ≠ '0') (h : List.replicate k '0' ++ s = t) : False := by
  obtain ⟨k0, rfl⟩ : ∃ k0, k = k0 + 1 := ⟨k - 1, by omega⟩
  rw [List.replicate_succ] at h
  rw [← h] at hth
  simp at hth

theorem pyZfill_canonical_inj {w : Nat} {s t : List Char}
    (hsh : s.headD ' ' ≠ '0') (hth : t.headD ' ' ≠ '0')
    (h : List.replicate (w - s.length) '0' ++ s = List.replicate (w - t.length) '0' ++ t) :
    s = t := by
  rcases Nat.lt_trichotomy s.length t.length with hlt | heq | hgt
  · exfalso
    have hlen := congrArg List.length h
    simp only [List.length_append, List.length_replicate] at hlen
    have hw : w - s.length = (w - t.length) + (t.length - s.length) := by omega
    rw [hw, List.replicate_add, List.append_assoc] at h
    exact replicate_pad_ne (by omega) hth (List.append_cancel_left h)
  · exact (List.append_inj h (by simp [List.length_replicate, heq])).2
  · exfalso
    have hlen := congrArg List.length h
    simp only [List.length_append, List.length_replicate] at hlen
    have hw : w - t.length = (w - s.length) + (s.length - t.length) := by omega
    rw [hw, List.replicate_add, List.append_assoc] at h
    exact replicate_pad_ne (by omega) hsh (List.append_cancel_left h.symm)

theorem seq_pad_inj {d i j : Nat} (hi : i ≠ 0) (hj : j ≠ 0)
    (h : (pyZfill (natStr i) d).data = (pyZfill (natStr j) d).data) : i = j := by
  rw [pyZfill_data, pyZfill_data] at h
  exact natStr_inj hi hj
    (pyZfill_canonical_inj (natStr_headD_ne_zero i hi) (natStr_headD_ne_zero j hj) h)

theorem generate_sequential_name_inj {folderName : String} {N : Nat} {e : String} {i j : Nat}
    (hi : i ≠ 0) (hj : j ≠ 0)
    (h : generate_sequential_name folderName i N e = generate_sequential_name folderName j N e) :
    i = j := by
  simp only [generate_sequential_name] at h
  have hd := congrArg String.data h
  simp only [string_data_append] at hd
  exact seq_pad_inj hi hj (List.append_cancel_left (List.append_cancel_right hd))

theorem fileExtensionOf_len (cfg : Cfg) : 4 ≤ (fileExtensionOf cfg).data.length := by
  unfold fileExtensionOf
  by_cases h : cfg.format = "webp"
  · rw [if_pos h]; decide
  · rw [if_neg h]; decide

theorem generate_sequential_name_long (folderName : String) (index totalCount : Nat)
    (ext : String) :
    5 ≤ (generate_sequential_name folderName index totalCount ext).data.length := by
  simp only [generate_sequential_name]
  rw [string_data_append, string_data_append, string_data_append]
  rw [List.length_append, List.length_append, List.length_append]
  have h4 : 4 ≤ (pyZfill (natStr index) (max (natStr totalCount).data.length 4)).data.length := by
    rw [pyZfill_length]
    exact le_trans (Nat.le_max_right _ 4) (Nat.le_max_left _ _)
  have hdash : ("-" : String).data.length = 1 := rfl
  omega

theorem generate_sequential_name_not_dots (folderName : String) (index totalCount : Nat)
    (ext : String) :
    generate_sequential_name folderName index totalCount ext ≠ "."
    ∧ generate_sequential_name folderName index totalCount ext ≠ ".." := by
  have h := generate_sequential_name_long folderName index totalCount ext
  constructor
  · intro hx
    rw [hx] at h
    exact absurd h (by decide)
  · intro hx
    rw [hx] at h
    exact absurd h (by decide)

theorem pyStrReplace_not_dots (name ext : String) (hsfx : pySuffix name ≠ "")
    (hext : 4 ≤ ext.data.length) :
    pyStrReplace name (pySuffix name) ext ≠ "."
    ∧ pyStrReplace name (pySuffix name) ext ≠ ".." := by
  obtain ⟨hdecomp, hne, hlen⟩ := pySuffix_decomp hsfx
  have hdata : (pyStrReplace name (pySuffix name) ext).data
      = replFuel (pySuffix name).data ext.data name.data.length name.data := by
    unfold pyStrReplace
    rw [if_neg (by simpa [List.isEmpty_iff] using hne)]
  have hcases := replFuel_len_or_id (pySuffix name).data ext.data name.data.length name.data le_rfl
  have h3 : 3 ≤ (pyStrReplace name (pySuffix name) ext).data.length := by
    rw [hdata]
    rcases hcases with hc | hc
    · rw [hc]; exact hlen
    · omega
  constructor
  · intro hx
    rw [hx] at h3
    exact absurd h3 (by decide)
  · intro hx
    rw [hx] at h3
    exact absurd h3 (by decide)

theorem resolveSegs_append_clean (d l : List String)
    (hclean : ∀ s ∈ l, s ≠ "." ∧ s ≠ "..") :
    resolveSegs (d ++ l) = resolveSegs d ++ l := by
  unfold resolveSegs
  rw [List.foldl_append]
  generalize List.foldl _ [] d = acc
  revert hclean
  induction l generalizing acc with
  | nil => intro _; simp
  | cons s rest ih =>
    intro hclean
    have hs := hclean s (List.mem_cons_self s rest)
    rw [List.foldl_cons]
    rw [if_neg hs.1, if_neg hs.2]
    rw [ih (acc ++ [s]) (fun x hx => hclean x (List.mem_cons_of_mem s hx))]
    rw [List.append_assoc]
    rfl

theorem charListLe_total : ∀ a b : List Char, charListLe a b = true ∨ charListLe b a = true := by
  intro a
  induction a with
  | nil => intro b; left; rfl
  | cons x xs ih =>
    intro b
    cases b with
    | nil => right; rfl
    | cons y ys =>
      rw [charListLe, charListLe]
      rcases lt_trichotomy x y with h | h | h
      · left; rw [if_pos h]
      · subst h
        rcases ih ys with h2 | h2
        · left; rw [if_neg (lt_irrefl x), if_neg (lt_irrefl x)]; exact h2
        · right; rw [if_neg (lt_irrefl x), if_neg (lt_irrefl x)]; exact h2
      · right; rw [if_pos h]

theorem charListLe_trans :
    ∀ a b c : List Char, charListLe a b = true → charListLe b c = true →
      charListLe a c = true := by
  intro a
  induction a with
  | nil => intro b c h1 h2; rfl
  | cons x xs ih =>
    intro b c h1 h2
    cases b with
    | nil => rw [charListLe] at h1; exact absurd h1 (by simp)
    | cons y ys =>
      cases c with
      | nil => rw [charListLe] at h2; exact absurd h2 (by simp)
      | cons z zs =>
        rw [charListLe] at h1 h2 ⊢
        by_cases hxy : x < y
        · by_cases hyz : y < z
          · rw [if_pos (lt_trans hxy hyz)]
          · by_cases hzy : z < y
            · rw [if_neg hyz, if_pos hzy] at h2; exact absurd h2 (by simp)
            · have hyz2 : y = z := le_antisymm (not_lt.mp hzy) (not_lt.mp hyz)
              subst hyz2
              rw [if_pos hxy]
        · by_cases hyx : y < x
          · rw [if_neg hxy, if_pos hyx] at h1; exact absurd h1 (by simp)
          · have hxy2 : x = y := le_antisymm (not_lt.mp hyx) (not_lt.mp hxy)
            subst hxy2
            rw [if_neg hxy, if_neg hyx] at h1
            by_cases hxz : x < z
            · rw [if_pos hxz]
            · by_cases hzx : z < x
              · rw [if_neg hxz, if_pos hzx] at h2; exact absurd h2 (by simp)
              · have h3 : x = z := le_antisymm (not_lt.mp hzx) (not_lt.mp hxz)
                subst h3
                rw [if_neg hxz, if_neg hzx] at h2 ⊢
                exact ih ys zs h1 h2

theorem charListLe_antisymm :
    ∀ a b : List Char, charListLe a b = true → charListLe b a = true → a = b := by
  intro a
  induction a with
  | nil =>
    intro b h1 h2
    cases b with
    | nil => rfl
    | cons y ys => rw [charListLe] at h2; exact absurd h2 (by simp)
  | cons x xs ih =>
    intro b h1 h2
    cases b with
    | nil => rw [charListLe] at h1; exact absurd h1 (by simp)
    | cons y ys =>
      rw [charListLe] at h1 h2
      by_cases hxy : x < y
      · rw [if_neg (asymm hxy), if_pos hxy] at h2; exact absurd h2 (by simp)
      · by_cases hyx : y < x
        · rw [if_neg hxy, if_pos hyx] at h1; exact absurd h1 (by simp)
        · have hxy2 : x = y := le_antisymm (not_lt.mp hyx) (not_lt.mp hxy)
          subst hxy2
          rw [if_neg hxy, if_neg hyx] at h1 h2
          rw [ih ys h1 h2]

theorem outputPathFor_seq_last (cfg : Cfg) (folderName : String)
    (destinationFolder : List String) (totalCount index : Nat) (relPath : List String)
    (hkeep : cfg.keepNames = false) :
    (outputPathFor cfg folderName destinationFolder totalCount index relPath).getLast?
      = some (generate_sequential_name folderName index totalCount (fileExtensionOf cfg)) := by
  by_cases hp : cfg.preserveDirs
  · simp only [outputPathFor, hkeep, hp, Bool.false_eq_true, if_false, if_true]
    rw [List.getLast?_concat]
  · simp only [outputPathFor, hkeep, hp, Bool.false_eq_true, if_false]
    rw [List.getLast?_concat]

theorem planLoop_seq_last (cfg : Cfg) (folderName : String)
    (targetPath destinationFolder : List String) (totalCount : Nat)
    (hkeep : cfg.keepNames = false) :
    ∀ (index : Nat) (files : List (List String)) (t : TaskArgs),
      t ∈ (planLoop cfg folderName targetPath destinationFolder totalCount index files).1 →
      ∃ j, index ≤ j ∧ t.outputPath.getLast?
        = some (generate_sequential_name folderName j totalCount (fileExtensionOf cfg)) := by
  intro index files
  induction files generalizing index with
  | nil =>
    intro t ht
    rw [planLoop] at ht
    simp at ht
  | cons f rest ih =>
    intro t ht
    simp only [planLoop] at ht
    by_cases hsec : (cfg.preserveDirs && !containmentOk destinationFolder
        (outputPathFor cfg folderName destinationFolder totalCount index f)) = true
    · rw [if_pos hsec] at ht
      obtain ⟨j, hj, hl⟩ := ih (index + 1) t ht
      exact ⟨j, by omega, hl⟩
    · rw [if_neg hsec] at ht
      rcases List.mem_cons.mp ht with heq | hmem
      · refine ⟨index, le_rfl, ?_⟩
        rw [heq]
        exact outputPathFor_seq_last cfg folderName destinationFolder totalCount index f hkeep
      · obtain ⟨j, hj, hl⟩ := ih (index + 1) t hmem
        exact ⟨j, by omega, hl⟩

theorem planLoop_seq_pairwise (cfg : Cfg) (folderName : String)
    (targetPath destinationFolder : List String) (totalCount : Nat)
    (hkeep : cfg.keepNames = false) :
    ∀ (index : Nat), 1 ≤ index → ∀ (files : List (List String)),
      ((planLoop cfg folderName targetPath destinationFolder totalCount index files).1).Pairwise
        (fun a b => a.outputPath ≠ b.outputPath) := by
  intro index hpos files
  induction files generalizing index with
  | nil => simp [planLoop]
  | cons f rest ih =>
    simp only [planLoop]
    by_cases hsec : (cfg.preserveDirs && !containmentOk destinationFolder
        (outputPathFor cfg folderName destinationFolder totalCount index f)) = true
    · rw [if_pos hsec]
      exact ih (index + 1) (by omega)
    · rw [if_neg hsec]
      refine List.Pairwise.cons ?_ (ih (index + 1) (by omega))
      intro b hb heq
      obtain ⟨j, hj, hl⟩ := planLoop_seq_last cfg folderName targetPath destinationFolder
        totalCount hkeep (index + 1) rest b hb
      rw [← heq] at hl
      rw [outputPathFor_seq_last cfg folderName destinationFolder totalCount index f hkeep] at hl
      have hij := generate_sequential_name_inj (by omega : index ≠ 0) (by omega : j ≠ 0)
        (Option.some.inj hl)
      omega

theorem flatten_output_contained (cfg : Cfg) (folderName : String)
    (destinationFolder : List String) (totalCount index : Nat) (relPath : List String)
    (hp : cfg.preserveDirs = false)
    (hname : pySuffix (relPath.getLastD "") ≠ "") :
    resolveSegs destinationFolder <+:
      resolveSegs (outputPathFor cfg folderName destinationFolder totalCount index relPath) := by
  have hnm : ∃ nm : String,
      outputPathFor cfg folderName destinationFolder totalCount index relPath
        = destinationFolder ++ [nm] ∧ nm ≠ "." ∧ nm ≠ ".." := by
    by_cases hk : cfg.keepNames
    · refine ⟨pyStrReplace (relPath.getLastD "") (pySuffix (relPath.getLastD ""))
        (fileExtensionOf cfg), ?_, ?_⟩
      · simp only [outputPathFor, hp, hk, Bool.false_eq_true, if_false, if_true]
      · exact pyStrReplace_not_dots _ _ hname (fileExtensionOf_len cfg)
    · refine ⟨generate_sequential_name folderName index totalCount (fileExtensionOf cfg), ?_, ?_⟩
      · simp only [outputPathFor, hp, hk, Bool.false_eq_true, if_false]
      · exact generate_sequential_name_not_dots folderName index totalCount (fileExtensionOf cfg)
  obtain ⟨nm, heq, h1, h2⟩ := hnm
  rw [heq, resolveSegs_append_clean destinationFolder [nm] ?_]
  · exact List.prefix_append _ _
  · intro s hs
    rw [List.mem_singleton.mp hs]
    exact ⟨h1, h2⟩

theorem planLoop_contained (cfg : Cfg) (folderName : String)
    (targetPath destinationFolder : List String) (totalCount : Nat) :
    ∀ (index : Nat) (files : List (List String)),
      (∀ f ∈ files, pySuffix (f.getLastD "") ≠ "") →
      (∀ t ∈ (planLoop cfg folderName targetPath destinationFolder totalCount index files).1,
          resolveSegs destinationFolder <+: resolveSegs t.outputPath)
      ∧ (planLoop cfg folderName targetPath destinationFolder totalCount index files).1.length
          + (planLoop cfg folderName targetPath destinationFolder totalCount index files).2.length
        = files.length := by
  intro index files
  induction files generalizing index with
  | nil =>
    intro _
    constructor
    · intro t ht
      rw [planLoop] at ht
      simp at ht
    · simp [planLoop]
  | cons f rest ih =>
    intro hnames
    have hrest := ih (index + 1) (fun x hx => hnames x (List.mem_cons_of_mem f hx))
    simp only [planLoop]
    by_cases hsec : (cfg.preserveDirs && !containmentOk destinationFolder
        (outputPathFor cfg folderName destinationFolder totalCount index f)) = true
    · rw [if_pos hsec]
      refine ⟨hrest.1, ?_⟩
      simp only [List.length_cons]
      omega
    · rw [if_neg hsec]
      constructor
      · intro t ht
        rcases List.mem_cons.mp ht with heq | hmem
        · rw [heq]
          by_cases hp : cfg.preserveDirs
          · have hok : containmentOk destinationFolder
                (outputPathFor cfg folderName destinationFolder totalCount index f) = true := by
              by_contra hno
              exact hsec (by simp [hp, hno])
            exact List.isPrefixOf_iff_prefix.mp hok
          · exact flatten_output_contained cfg folderName destinationFolder totalCount index f
              (by simpa using hp) (hnames f (List.mem_cons_self f rest))
        · exact hrest.1 t hmem
      · simp only [List.length_cons]
        omega

/-! ## Claim theorems -/

/-- C1 counterexample: in flatten plus keep-original-names mode two files
with the same basename in different source directories yield two tasks
with the same output path; neither task is dropped and no diagnostic is
recorded, contradicting the claimed collision handling. -/
theorem flatten_keep_names_collision :
    ((prepare_processing_tasks ⟨2400, 87, "jpg", true, false, false, false⟩ ["t"] ["d", "t"]
        [["a", "x.jpg"], ["b", "x.jpg"]]).tasks).map TaskArgs.outputPath
      = [["d", "t", "x.jpg"], ["d", "t", "x.jpg"]]
    ∧ (prepare_processing_tasks ⟨2400, 87, "jpg", true, false, false, false⟩ ["t"] ["d", "t"]
        [["a", "x.jpg"], ["b", "x.jpg"]]).securityErrors = []
    ∧ ¬ (((prepare_processing_tasks ⟨2400, 87, "jpg", true, false, false, false⟩ ["t"]
        ["d", "t"] [["a", "x.jpg"], ["b", "x.jpg"]]).tasks).map TaskArgs.outputPath).Nodup := by
  decide

/-- C1 amended: only sequential naming guarantees unique output paths: with
keepNames off, every planned batch has pairwise distinct outputPaths (in
flatten and preserve modes alike), while keep-original-names mode admits
silent collisions that are neither dropped nor diagnosed. -/
theorem sequential_outputs_distinct (cfg : Cfg) (targetPath destinationFolder : List String)
    (imageFiles : List (List String)) (hkeep : cfg.keepNames = false) :
    ((prepare_processing_tasks cfg targetPath destinationFolder imageFiles).tasks).Pairwise
      (fun a b => a.outputPath ≠ b.outputPath) := by
  unfold prepare_processing_tasks
  by_cases h : imageFiles.isEmpty
  · simp [h]
  · by_cases hd : cfg.dryRun
    · simp [h, hd]
    · simp only [h, hd, Bool.false_eq_true, if_false]
      exact planLoop_seq_pairwise cfg (targetPath.getLastD "") targetPath destinationFolder
        imageFiles.length hkeep 1 (by omega) imageFiles

/-- Witness for C1 amended: a concrete sequential flatten batch in which
two same-named sources receive distinct sequential output names. -/
theorem sequential_outputs_distinct_witness :
    ((prepare_processing_tasks ⟨2400, 87, "jpg", false, false, false, false⟩ ["t"] ["d", "t"]
        [["a", "x.jpg"], ["b", "x.jpg"]]).tasks).Pairwise
      (fun a b => a.outputPath ≠ b.outputPath) :=
  sequential_outputs_distinct ⟨2400, 87, "jpg", false, false, false, false⟩ ["t"] ["d", "t"]
    [["a", "x.jpg"], ["b", "x.jpg"]] rfl

/-- C2: every planned task's output path, after lexical resolution of dot
and dot-dot segments (the symlink-free model of Path.resolve), lies
within the destination folder: in preserve-dirs mode the security check
drops each offending task with a diagnostic, and in flatten mode every
output is a direct child of the destination; every discovered file yields
either a task or one security diagnostic, so planning continues past a
drop. -/
theorem planned_outputs_contained (cfg : Cfg) (targetPath destinationFolder : List String)
    (imageFiles : List (List String))
    (hdry : cfg.dryRun = false)
    (hnames : ∀ f ∈ imageFiles, pySuffix (f.getLastD "") ≠ "") :
    (∀ t ∈ (prepare_processing_tasks cfg targetPath destinationFolder imageFiles).tasks,
        resolveSegs destinationFolder <+: resolveSegs t.outputPath)
    ∧ (prepare_processing_tasks cfg targetPath destinationFolder imageFiles).tasks.length
        + (prepare_processing_tasks cfg targetPath destinationFolder
            imageFiles).securityErrors.length
      = imageFiles.length := by
  unfold prepare_processing_tasks
  by_cases h : imageFiles.isEmpty
  · constructor
    · intro t ht
      simp [h] at ht
    · simp [h, List.isEmpty_iff.mp h]
  · simp only [h, hdry, Bool.false_eq_true, if_false]
    exact planLoop_contained cfg (targetPath.getLastD "") targetPath destinationFolder
      imageFiles.length 1 imageFiles hnames

/-- Witness for C2: a preserve-dirs batch in which one relative path
escapes the destination and is dropped with a diagnostic while the other
file is planned normally. -/
theorem planned_outputs_contained_witness :
    (∀ t ∈ (prepare_processing_tasks ⟨2400, 87, "jpg", true, true, false, false⟩ ["t"]
        ["d", "t"] [["..", "..", "x.jpg"], ["a", "y.jpg"]]).tasks,
        resolveSegs ["d", "t"] <+: resolveSegs t.outputPath)
    ∧ (prepare_processing_tasks ⟨2400, 87, "jpg", true, true, false, false⟩ ["t"] ["d", "t"]
        [["..", "..", "x.jpg"], ["a", "y.jpg"]]).tasks.length
        + (prepare_processing_tasks ⟨2400, 87, "jpg", true, true, false, false⟩ ["t"] ["d", "t"]
            [["..", "..", "x.jpg"], ["a", "y.jpg"]]).securityErrors.length
      = 2 :=
  planned_outputs_contained ⟨2400, 87, "jpg", true, true, false, false⟩ ["t"] ["d", "t"]
    [["..", "..", "x.jpg"], ["a", "y.jpg"]] rfl (by decide)

/-- C3 counterexample: for the input name x.png.png in flatten plus
keep-original-names mode with jpg output, the code performs a whole-string
replace of the suffix and plans x.jpg.jpg, while replacing only the final
suffix would give x.png.jpg. -/
theorem keep_names_replaces_all_occurrences :
    ((prepare_processing_tasks ⟨2400, 87, "jpg", true, false, false, false⟩ ["t"] ["d", "t"]
        [["x.png.png"]]).tasks).map TaskArgs.outputPath = [["d", "t", "x.jpg.jpg"]]
    ∧ pyWithSuffix "x.png.png" ".jpg" = "x.png.jpg"
    ∧ ("x.jpg.jpg" : String) ≠ "x.png.jpg" := by
  decide

/-- C3 amended: with keepOriginal names, the preserve-dirs branch replaces
only the final suffix (with_suffix: stem plus new extension, the rest of
the name unchanged), while the flatten branch replaces every occurrence of
the suffix substring via str.replace; the flatten result agrees with
final-suffix replacement whenever the extension string does not occur
before the final suffix (a sufficient condition: it can also coincide
with an earlier occurrence, for instance when the new extension equals
the old one, while deviating in general as the counterexample shows). -/
theorem keep_names_extension_replacement (cfg : Cfg) (folderName : String)
    (destinationFolder : List String) (totalCount index : Nat) (relPath : List String)
    (hkeep : cfg.keepNames = true) (hsfx : pySuffix (relPath.getLastD "") ≠ "") :
    (cfg.preserveDirs = true →
      (outputPathFor cfg folderName destinationFolder totalCount index relPath).getLast?
        = some (pyStem (relPath.getLastD "") ++ fileExtensionOf cfg))
    ∧ (cfg.preserveDirs = false →
        ¬ (pySuffix (relPath.getLastD "")).data <:+: (relPath.getLastD "").data.dropLast →
        (outputPathFor cfg folderName destinationFolder totalCount index relPath).getLast?
          = some (pyStem (relPath.getLastD "") ++ fileExtensionOf cfg))
    ∧ pyStem (relPath.getLastD "") ++ pySuffix (relPath.getLastD "") = relPath.getLastD "" := by
  refine ⟨?_, ?_, pyStem_append_pySuffix _⟩
  · intro hp
    simp only [outputPathFor, hkeep, hp, if_true]
    rw [List.getLast?_concat]
    rfl
  · intro hp hninf
    simp only [outputPathFor, hkeep, hp, Bool.false_eq_true, if_false, if_true]
    rw [List.getLast?_concat, pyStrReplace_final_suffix _ _ hsfx hninf]

/-- Witness for C3 amended at concrete names: with_suffix semantics in
preserve mode on x.png.png, and agreement of the flatten replacement with
final-suffix replacement on the benign name a.jpg. -/
theorem keep_names_extension_replacement_witness :
    (outputPathFor ⟨2400, 87, "jpg", true, true, false, false⟩ "t" ["d", "t"] 1 1
        [["x.png.png"].getLastD ""]).getLast? = some (pyStem "x.png.png" ++ ".jpg")
    ∧ (outputPathFor ⟨2400, 87, "jpg", true, false, false, false⟩ "t" ["d", "t"] 1 1
        [["a.jpg"].getLastD ""]).getLast? = some (pyStem "a.jpg" ++ ".jpg")
    ∧ pyStem "a.jpg" ++ pySuffix "a.jpg" = "a.jpg" := by
  refine ⟨?_, ?_, ?_⟩
  · exact (keep_names_extension_replacement ⟨2400, 87, "jpg", true, true, false, false⟩ "t"
      ["d", "t"] 1 1 [["x.png.png"].getLastD ""] rfl (by decide)).1 rfl
  · exact (keep_names_extension_replacement ⟨2400, 87, "jpg", true, false, false, false⟩ "t"
      ["d", "t"] 1 1 [["a.jpg"].getLastD ""] rfl (by decide)).2.1 rfl (by decide)
  · exact (keep_names_extension_replacement ⟨2400, 87, "jpg", true, false, false, false⟩ "t"
      ["d", "t"] 1 1 [["a.jpg"].getLastD ""] rfl (by decide)).2.2

/-- C5 counterexample: discovery returns the walked files in traversal
order, which is OS dependent; with a directory listing b.jpg before a.jpg
the returned sequence is not sorted lexicographically by full path. -/
theorem discovery_not_sorted :
    (get_image_files [("t", ["b.jpg", "a.jpg"])] none).1 = ["t/b.jpg", "t/a.jpg"]
    ∧ ¬ List.Sorted strLe (get_image_files [("t", ["b.jpg", "a.jpg"])] none).1 := by
  constructor
  · rfl
  · decide

/-- C5 amended: the planner sorts the discovered list before numbering
(line 198): the sorted sequence is lexicographically ordered, is a
permutation of the discovery output, and is identical for any two walks
that enumerate the same files, which makes sequential numbering
deterministic and reproducible. -/
theorem planner_sorts_discovered_files (w1 w2 : List (String × List String))
    (inc1 inc2 : Option (List String))
    (hperm : (get_image_files w1 inc1).1.Perm (get_image_files w2 inc2).1) :
    List.Sorted strLe (sorted_image_files w1 inc1)
    ∧ (sorted_image_files w1 inc1).Perm (get_image_files w1 inc1).1
    ∧ sorted_image_files w1 inc1 = sorted_image_files w2 inc2 := by
  have htotal : IsTotal String strLe := ⟨fun a b => charListLe_total a.data b.data⟩
  have htrans : IsTrans String strLe := ⟨fun a b c => charListLe_trans a.data b.data c.data⟩
  have hanti : IsAntisymm String strLe :=
    ⟨fun a b h1 h2 => String.ext (charListLe_antisymm a.data b.data h1 h2)⟩
  refine ⟨@List.sorted_insertionSort String strLe _ htotal htrans _,
    List.perm_insertionSort strLe _, ?_⟩
  exact @List.eq_of_perm_of_sorted String strLe hanti _ _
    ((List.perm_insertionSort strLe _).trans
      (hperm.trans (List.perm_insertionSort strLe _).symm))
    (@List.sorted_insertionSort String strLe _ htotal htrans _)
    (@List.sorted_insertionSort String strLe _ htotal htrans _)

/-- Witness for C5 amended: two walks listing the same directory in
opposite orders sort to the same sequence. -/
theorem planner_sorts_discovered_files_witness :
    List.Sorted strLe (sorted_image_files [("t", ["b.jpg", "a.jpg"])] none)
    ∧ (sorted_image_files [("t", ["b.jpg", "a.jpg"])] none).Perm
        (get_image_files [("t", ["b.jpg", "a.jpg"])] none).1
    ∧ sorted_image_files [("t", ["b.jpg", "a.jpg"])] none
        = sorted_image_files [("t", ["a.jpg", "b.jpg"])] none :=
  planner_sorts_discovered_files [("t", ["b.jpg", "a.jpg"])] [("t", ["a.jpg", "b.jpg"])]
    none none (by decide)

/-- C9: the sequential name is the folder name, a dash, the 1-based index
zero-padded to max(4, digitCount(totalCount)) digits, then the extension;
for an index not exceeding the total the digit block has exactly that
width, and the two specification examples (N = 12 giving four digits,
N = 123456 giving six) evaluate as stated. -/
theorem sequential_name_format (folderName : String) (i N : Nat) (e : String)
    (h1 : 1 ≤ i) (h2 : i ≤ N) :
    generate_sequential_name folderName i N e
      = folderName ++ "-" ++ pyZfill (natStr i) (max 4 (digitCount N)) ++ e
    ∧ (pyZfill (natStr i) (max 4 (digitCount N))).data.length = max 4 (digitCount N)
    ∧ generate_sequential_name "folder" 1 12 ".jpg" = "folder-0001.jpg"
    ∧ generate_sequential_name "folder" 1 123456 ".jpg" = "folder-000001.jpg" := by
  have hmono : (natStr i).data.length ≤ digitCount N := by
    unfold digitCount
    rw [natStr_length i (by omega), natStr_length N (by omega)]
    exact Nat.le_digits_len_le 10 i N h2
  refine ⟨?_, ?_, by decide, by decide⟩
  · simp only [generate_sequential_name, digitCount]
    rw [Nat.max_comm]
  · rw [pyZfill_length]
    exact Nat.max_eq_left (le_trans hmono (Nat.le_max_right 4 (digitCount N)))

/-- Witness for C9 at index 3 of 12. -/
theorem sequential_name_format_witness :
    generate_sequential_name "folder" 3 12 ".jpg"
      = "folder" ++ "-" ++ pyZfill (natStr 3) (max 4 (digitCount 12)) ++ ".jpg"
    ∧ (pyZfill (natStr 3) (max 4 (digitCount 12))).data.length = max 4 (digitCount 12) :=
  ⟨(sequential_name_format "folder" 3 12 ".jpg" (by decide) (by decide)).1,
    (sequential_name_format "folder" 3 12 ".jpg" (by decide) (by decide)).2.1⟩

/-- C10: an empty include-extension set is falsy in Python, so discovery
falls back to the full default extension set exactly as when no filter is
given; only a nonempty filter whose intersection with the default set is
empty yields the empty result together with the warning flag. -/
theorem empty_include_filter_defaults (walkOutput : List (String × List String)) :
    get_image_files walkOutput (some []) = get_image_files walkOutput none
    ∧ ∀ exts : List String, exts ≠ [] →
        exts.filter (fun e => defaultExtensions.contains e) = [] →
        get_image_files walkOutput (some exts) = ([], true) := by
  constructor
  · rfl
  · intro exts hne hint
    unfold get_image_files
    simp only [List.isEmpty_iff, hne, if_false, hint]
    simp

/-- Witness for C10 at a concrete walk: the empty filter behaves like no
filter, and a nonempty filter of unsupported extensions warns. -/
theorem empty_include_filter_defaults_witness :
    get_image_files [("t", ["a.jpg"])] (some [])
      = get_image_files [("t", ["a.jpg"])] none
    ∧ get_image_files [("t", ["a.jpg"])] (some [".gif"]) = ([], true) :=
  ⟨(empty_include_filter_defaults [("t", ["a.jpg"])]).1,
    (empty_include_filter_defaults [("t", ["a.jpg"])]).2 [".gif"] (by decide) (by decide)⟩

/-- C7: when skipExisting is set and the output path exists, the worker
returns the skipped outcome carrying the stat sizes of the input and of
the existing output, leaves the filesystem unchanged, and never invokes
the transformer. -/
theorem skip_existing_skips (optimize : FS → TaskArgs → Bool × FS) (fs : FS) (t : TaskArgs)
    (si so : Nat) (hskip : t.skipExisting = true)
    (hin : fsLookup fs t.inputPath = some si)
    (hout : fsLookup fs t.outputPath = some so) :
    process_single_image optimize fs t
      = (⟨true, t.inputPath, none, si, so, true⟩, fs, 0) := by
  simp [process_single_image, hin, hskip, hout]

/-- Witness for C7 at a concrete filesystem and task. -/
theorem skip_existing_skips_witness :
    process_single_image (fun f _ => (true, f))
        [(["t", "a.jpg"], 10), (["d", "a.jpg"], 7)]
        ⟨["t", "a.jpg"], ["d", "a.jpg"], 2400, 87, "jpg", true⟩
      = (⟨true, ["t", "a.jpg"], none, 10, 7, true⟩,
          [(["t", "a.jpg"], 10), (["d", "a.jpg"], 7)], 0) :=
  skip_existing_skips (fun f _ => (true, f)) _ _ 10 7 rfl (by decide) (by decide)

/-- C4 counterexample: at width 3000, height 2001, maxDimension 2400 the
code computes the shorter dimension by truncation, 1600, while standard
rounding of 2001 * 2400 / 3000 = 1600.8 gives 1601; so the claimed
standard rounding does not hold. -/
theorem resize_truncates_not_rounds :
    (resizeDims 3000 2001 2400).2 = 1600 ∧ roundNearest (2001 * 2400) 3000 = 1601
    ∧ (resizeDims 3000 2001 2400).2 ≠ roundNearest (2001 * 2400) 3000 := by decide

/-- C4 amended: the transform resizes exactly when the larger dimension
exceeds maxDimension; it then sets the larger dimension to exactly
maxDimension and scales the shorter one by the same ratio truncated
toward zero (a floor), so the shorter result never exceeds maxDimension;
when both dimensions fit, the image is left unchanged. -/
theorem resize_characterization (width height maxSize : Nat) :
    (max width height ≤ maxSize → resizeDims width height maxSize = (width, height))
    ∧ (maxSize < max width height → height < width →
        resizeDims width height maxSize = (maxSize, height * maxSize / width)
        ∧ height * maxSize / width ≤ maxSize)
    ∧ (maxSize < max width height → width ≤ height →
        resizeDims width height maxSize = (width * maxSize / height, maxSize)
        ∧ width * maxSize / height ≤ maxSize) := by
  refine ⟨?_, ?_, ?_⟩
  · intro h
    simp [resizeDims, Nat.not_lt.mpr h]
  · intro h hwh
    have hw : 0 < width := Nat.lt_of_le_of_lt (Nat.zero_le height) hwh
    constructor
    · simp [resizeDims, h, hwh]
    · calc height * maxSize / width ≤ width * maxSize / width :=
            Nat.div_le_div_right (Nat.mul_le_mul_right maxSize (Nat.le_of_lt hwh))
        _ = maxSize := Nat.mul_div_cancel_left maxSize hw
  · intro h hwh
    have hh : 0 < height := by
      rcases Nat.eq_zero_or_pos height with h0 | h0
      · subst h0
        simp [Nat.le_zero] at hwh
        subst hwh
        simp at h
      · exact h0
    constructor
    · simp [resizeDims, h, Nat.not_lt.mpr hwh]
    · calc width * maxSize / height ≤ height * maxSize / height :=
            Nat.div_le_div_right (Nat.mul_le_mul_right maxSize hwh)
        _ = maxSize := Nat.mul_div_cancel_left maxSize hh

/-- Witness for C4 amended at concrete dimensions on both sides of the
threshold. -/
theorem resize_characterization_witness :
    resizeDims 3000 2001 2400 = (2400, 2001 * 2400 / 3000)
    ∧ 2001 * 2400 / 3000 ≤ 2400 ∧ resizeDims 800 600 2400 = (800, 600) :=
  ⟨((resize_characterization 3000 2001 2400).2.1 (by decide) (by decide)).1,
    ((resize_characterization 3000 2001 2400).2.1 (by decide) (by decide)).2,
    (resize_characterization 800 600 2400).1 (by decide)⟩

/-- C6: for every pool size between 1 and 16 and every arrival order that
is a permutation of the per-task results, the three terminal counters
partition the batch: their sum equals the number of tasks. -/
theorem outcome_counts_partition (run : TaskArgs → WorkerResult) (taskArgs : List TaskArgs)
    (processes : Nat) (arrival : List WorkerResult)
    (h1 : 1 ≤ processes) (h16 : processes ≤ 16)
    (hperm : arrival.Perm (taskArgs.map run)) :
    (process_images_with_progress run taskArgs processes arrival).successful
      + (process_images_with_progress run taskArgs processes arrival).failed
      + (process_images_with_progress run taskArgs processes arrival).skipped
    = taskArgs.length := by
  unfold process_images_with_progress
  by_cases hempty : taskArgs.isEmpty
  · simp [hempty, List.isEmpty_iff.mp hempty]
  · by_cases hp : processes = 1
    · simp [hempty, hp, foldResult_counts]
    · have hlen : arrival.length = taskArgs.length := by
        rw [hperm.length_eq, List.length_map]
      simp [hempty, hp, foldResult_counts, hlen]

/-- Witness for C6 with two processes and reversed arrival order. -/
theorem outcome_counts_partition_witness :
    (process_images_with_progress (fun t => ⟨true, t.inputPath, none, 1, 1, false⟩)
        [⟨["a"], ["oa"], 2400, 87, "jpg", false⟩, ⟨["b"], ["ob"], 2400, 87, "jpg", false⟩]
        2
        [⟨true, ["b"], none, 1, 1, false⟩, ⟨true, ["a"], none, 1, 1, false⟩]).successful
      + (process_images_with_progress (fun t => ⟨true, t.inputPath, none, 1, 1, false⟩)
        [⟨["a"], ["oa"], 2400, 87, "jpg", false⟩, ⟨["b"], ["ob"], 2400, 87, "jpg", false⟩]
        2
        [⟨true, ["b"], none, 1, 1, false⟩, ⟨true, ["a"], none, 1, 1, false⟩]).failed
      + (process_images_with_progress (fun t => ⟨true, t.inputPath, none, 1, 1, false⟩)
        [⟨["a"], ["oa"], 2400, 87, "jpg", false⟩, ⟨["b"], ["ob"], 2400, 87, "jpg", false⟩]
        2
        [⟨true, ["b"], none, 1, 1, false⟩, ⟨true, ["a"], none, 1, 1, false⟩]).skipped
    = 2 :=
  outcome_counts_partition _ _ 2 _ (by decide) (by decide) (by decide)

/-- C8: in dry-run mode the destination folder is computed but not
created, the planner produces no tasks (so executing the plan performs no
transformer invocation and leaves the filesystem untouched), and instead
a preview is rendered listing the computed output names of the first five
files plus a count of the remainder when more than five exist. -/
theorem dry_run_no_side_effects (cfg : Cfg) (targetFolder destinationBase : List String)
    (madeDirs : List (List String)) (targetPath destinationFolder : List String)
    (imageFiles : List (List String)) (optimize : FS → TaskArgs → Bool × FS) (fs : FS)
    (hdry : cfg.dryRun = true) :
    create_destination_structure targetFolder destinationBase cfg.dryRun madeDirs
      = (destinationBase ++ [targetFolder.getLastD ""], madeDirs)
    ∧ (prepare_processing_tasks cfg targetPath destinationFolder imageFiles).tasks = []
    ∧ runBatch optimize fs
        (prepare_processing_tasks cfg targetPath destinationFolder imageFiles).tasks
      = ([], fs, 0)
    ∧ (imageFiles ≠ [] →
        (prepare_processing_tasks cfg targetPath destinationFolder imageFiles).preview
          = some (preview_processing cfg (targetPath.getLastD "") destinationFolder imageFiles)
        ∧ (preview_processing cfg (targetPath.getLastD "") destinationFolder
            imageFiles).examples.length = min 5 imageFiles.length
        ∧ (preview_processing cfg (targetPath.getLastD "") destinationFolder
            imageFiles).moreCount
          = (if 5 < imageFiles.length then some (imageFiles.length - 5) else none)) := by
  have htasks : (prepare_processing_tasks cfg targetPath destinationFolder imageFiles).tasks
      = [] := by
    unfold prepare_processing_tasks
    by_cases h : imageFiles.isEmpty <;> simp [h, hdry]
  refine ⟨by simp [create_destination_structure, hdry], htasks, by rw [htasks]; rfl, ?_⟩
  intro hne
  refine ⟨?_, ?_, rfl⟩
  · unfold prepare_processing_tasks
    simp [List.isEmpty_iff, hne, hdry]
  · simp [preview_processing, previewLoop_length, List.length_take, Nat.min_comm]

/-- Witness for C8 at a concrete dry-run configuration with six files. -/
theorem dry_run_no_side_effects_witness :
    (prepare_processing_tasks ⟨2400, 87, "jpg", false, false, false, true⟩ ["t"] ["d", "t"]
        [["a.jpg"], ["b.jpg"], ["c.jpg"], ["d.jpg"], ["e.jpg"], ["f.jpg"]]).tasks = []
    ∧ (preview_processing ⟨2400, 87, "jpg", false, false, false, true⟩ "t" ["d", "t"]
        [["a.jpg"], ["b.jpg"], ["c.jpg"], ["d.jpg"], ["e.jpg"], ["f.jpg"]]).examples.length
      = min 5 6
    ∧ (preview_processing ⟨2400, 87, "jpg", false, false, false, true⟩ "t" ["d", "t"]
        [["a.jpg"], ["b.jpg"], ["c.jpg"], ["d.jpg"], ["e.jpg"], ["f.jpg"]]).moreCount
      = some 1 :=
  by
    have h := dry_run_no_side_effects ⟨2400, 87, "jpg", false, false, false, true⟩
      ["t"] ["d", "t"] [] ["t"] ["d", "t"]
      [["a.jpg"], ["b.jpg"], ["c.jpg"], ["d.jpg"], ["e.jpg"], ["f.jpg"]]
      (fun f _ => (true, f)) [] rfl
    exact ⟨h.2.1, ((h.2.2.2 (by decide)).2.1).trans (by decide),
      ((h.2.2.2 (by decide)).2.2).trans (by decide)⟩

end Picks
